import Mathlib

/-!
Verification development for the PrintFlow block/property content model.

The definitions below are a shallow embedding of the block sequence editor
(PageEditor: getDefaultContent, addBlock, deleteBlock, moveBlock, the
loadPageData deserialization fallback, handleSave serialization), the
database schema builder (DatabaseBuilder.moveProperty,
PropertyEditorDialog.handleSave), and the entry viewer/editor
(DatabaseViewer.filteredEntries, EntryEditorDialog initial form data).
Machine state (React useState) is modelled by explicit list passing; the
platform JSON codec is modelled as an abstract parse function whose three
outcomes encode: parse failure (exception), a parsed non-array value, and a
parsed array of blocks.
-/

namespace PrintFlow

/-- Block type tags, from the Block interface: the fixed tag set
text, heading, image, database, gallery, embed, divider. -/
inductive BlockType where
  | text
  | heading
  | image
  | database
  | gallery
  | embed
  | divider
deriving DecidableEq

/-- Tag-specific block payloads, from the TextBlock, HeadingBlock,
ImageBlock, DatabaseBlock, GalleryBlock, EmbedBlock interfaces; divider
carries the empty payload. -/
inductive BlockContent where
  | text (text : String) (format : String)
  | heading (text : String) (level : Nat)
  | image (url : String) (caption : String) (alt : String)
  | database (databaseId : String) (viewType : String)
  | gallery (assets : List String) (layout : String)
  | embed (url : String) (title : String) (description : String)
  | divider
deriving DecidableEq

/-- One unit of page content, from the Block interface. -/
structure Block where
  id : String
  type : BlockType
  content : BlockContent
  position : Nat
deriving DecidableEq

/-- Property type tags, from the DatabaseProperty interface. -/
inductive PropertyType where
  | text
  | number
  | date
  | select
  | multiSelect
  | checkbox
  | url
  | email
  | phone
  | rating
  | file
  | image
deriving DecidableEq

/-- One schema field, from the DatabaseProperty interface. The optional
JS field required is modelled as Bool since every use coerces undefined
to false; options stays optional because its presence is significant. -/
structure DatabaseProperty where
  id : String
  name : String
  type : PropertyType
  options : Option (List String)
  required : Bool
deriving DecidableEq

/-- Entry field values: the value shapes the code stores and inspects
(strings, numbers, booleans, string lists). -/
inductive Value where
  | str (s : String)
  | num (n : Int)
  | bool (b : Bool)
  | list (xs : List String)
deriving DecidableEq

/-- Move direction for moveBlock and moveProperty. -/
inductive Direction where
  | up
  | down
deriving DecidableEq

/-- JS Array.prototype.splice with zero deletions: inserts the element at
index n, clamping an out-of-range index to the end of the array. -/
def spliceInsert (n : Nat) (a : α) (l : List α) : List α :=
  l.take n ++ a :: l.drop n

/-- JS Array.prototype.findIndex, with the not-found result -1 modelled
as none. -/
def findIndex (p : α → Bool) : List α → Option Nat
  | [] => none
  | a :: l => if p a then some 0 else (findIndex p l).map (· + 1)

/-- The in-place position rewrite used by the editor after every
structural mutation: each block receives its array index as position,
counting from n. -/
def reindexFrom (n : Nat) : List Block → List Block
  | [] => []
  | b :: bs => { b with position := n } :: reindexFrom (n + 1) bs

/-- Positions rewritten to array indices starting at 0, as the forEach
and map position updates in addBlock, deleteBlock and moveBlock do. -/
def reindex (bs : List Block) : List Block :=
  reindexFrom 0 bs

/-- The position invariant of the data model: position fields equal
0..n-1 in array order. -/
def positionsOk (bs : List Block) : Prop :=
  bs.map (fun b => b.position) = List.range bs.length

/-- PageEditor.getDefaultContent: the zero-value payload for each tag. -/
def getDefaultContent : BlockType → BlockContent
  | .text => .text "" "paragraph"
  | .heading => .heading "" 1
  | .image => .image "" "" ""
  | .database => .database "" "table"
  | .gallery => .gallery [] "grid"
  | .embed => .embed "" "" ""
  | .divider => .divider

/-- PageEditor.addBlock: builds a new block with the default content for
the tag, splices it in at the requested index (end of list when the index
is omitted), then rewrites every position to its array index. The fresh
id, produced in the source from the current time, is a parameter. -/
def addBlock (bs : List Block) (tag : BlockType) (newId : String)
    (positionArg : Option Nat) : List Block :=
  let newPosition := positionArg.getD bs.length
  let newBlock : Block :=
    { id := newId, type := tag, content := getDefaultContent tag,
      position := newPosition }
  reindex (spliceInsert newPosition newBlock bs)

/-- PageEditor.deleteBlock: drops every block with the given id, then
rewrites positions to array indices. -/
def deleteBlock (bs : List Block) (blockId : String) : List Block :=
  reindex ((bs.filter (fun b => !(b.id == blockId))))

/-- The shared adjacency-swap core of moveBlock and moveProperty: locate
the element by id, compute the neighbour index for the direction, return
none at either boundary or when the id is absent, otherwise splice the
element out and back in at the neighbour index. -/
def moveCore (getId : α → String) (l : List α) (theId : String)
    (dir : Direction) : Option (List α) :=
  match findIndex (fun x => getId x == theId) l with
  | none => none
  | some i =>
    match dir with
    | .up =>
      if i = 0 then none
      else
        match l[i]? with
        | none => none
        | some a => some (spliceInsert (i - 1) a (l.eraseIdx i))
    | .down =>
      if i + 1 ≥ l.length then none
      else
        match l[i]? with
        | none => none
        | some a => some (spliceInsert (i + 1) a (l.eraseIdx i))

/-- PageEditor.moveBlock: swap with the neighbour in the given direction
and rewrite positions; the not-found and boundary cases return the list
unchanged, without touching positions. -/
def moveBlock (bs : List Block) (blockId : String) (dir : Direction) :
    List Block :=
  match moveCore Block.id bs blockId dir with
  | none => bs
  | some moved => reindex moved

/-- DatabaseBuilder.moveProperty: the same swap discipline on the schema
property list; properties carry no position field, so nothing is
rewritten. -/
def moveProperty (props : List DatabaseProperty) (propertyId : String)
    (dir : Direction) : List DatabaseProperty :=
  match moveCore DatabaseProperty.id props propertyId dir with
  | none => props
  | some moved => moved

/-- One structural edit of the block sequence editor. -/
inductive BlockOp where
  | insert (tag : BlockType) (newId : String) (positionArg : Option Nat)
  | remove (blockId : String)
  | move (blockId : String) (dir : Direction)

/-- Apply one structural edit. -/
def applyBlockOp (bs : List Block) : BlockOp → List Block
  | .insert tag newId positionArg => addBlock bs tag newId positionArg
  | .remove blockId => deleteBlock bs blockId
  | .move blockId dir => moveBlock bs blockId dir

/-- Apply a sequence of structural edits in order. -/
def applyBlockOps (bs : List Block) (ops : List BlockOp) : List Block :=
  ops.foldl applyBlockOp bs

/-- The fallback block loadPageData installs when parsing the stored
content throws: a single text block whose text is the raw stored
content. -/
def defaultTextBlock (raw : String) : Block :=
  { id := "block-1", type := .text,
    content := .text raw "paragraph", position := 0 }

/-- PageEditor.loadPageData, content-parsing part. The stored content is
an optional string (none models a null field). The platform JSON.parse
combined with the Array.isArray test is the abstract parameter parse:
none models a parse exception, some none a parsed non-array value, and
some (some bs) a parsed array of blocks. Falsy content (null or the
empty string) is never parsed and yields the empty list; a parsed
non-array also yields the empty list; a parse exception is caught and
yields the single fallback text block carrying the raw content. -/
def deserialize (parse : String → Option (Option (List Block)))
    (content : Option String) : List Block :=
  match content with
  | none => []
  | some s =>
    if s = "" then []
    else
      match parse s with
      | some (some bs) => bs
      | some none => []
      | none => [defaultTextBlock s]

/-- The identity-relevant projection of a block: everything except the
derived position field. -/
def blockCore (b : Block) : String × BlockType × BlockContent :=
  (b.id, b.type, b.content)

/-- Whitespace stripped from both ends of a character list. -/
def trimChars (cs : List Char) : List Char :=
  ((cs.dropWhile Char.isWhitespace).reverse.dropWhile Char.isWhitespace).reverse

/-- JS String.prototype.trim, modelled over the character list. -/
def jsTrim (s : String) : String :=
  String.mk (trimChars s.toList)

/-- JS String.prototype.toLowerCase, modelled character-wise. -/
def jsToLower (s : String) : String :=
  String.mk (s.toList.map Char.toLower)

/-- PropertyEditorDialog.handleSave: refuses a name that is empty after
trimming, otherwise builds the saved property; the options key is spread
in exactly when the type is select or multiSelect, carrying the dialog
option list as it stands. An existing property keeps its id, a new one
receives a fresh id, produced in the source from the current time. -/
def propertyEditorSave (existingId : Option String) (freshId : String)
    (name : String) (ptype : PropertyType) (required : Bool)
    (options : List String) : Option DatabaseProperty :=
  if jsTrim name = "" then none
  else
    some
      { id := existingId.getD freshId,
        name := jsTrim name,
        type := ptype,
        required := required,
        options :=
          if ptype = .select ∨ ptype = .multiSelect then some options
          else none }

/-- Substring test on character lists: true when the first list occurs
contiguously inside the second, the containment JS String.includes
performs. -/
def charSub (q : List Char) : List Char → Bool
  | [] => q.isEmpty
  | c :: t => q.isPrefixOf (c :: t) || charSub q t

/-- JS String.includes: substring containment. -/
def strIncludes (s q : String) : Bool :=
  charSub q.toList s.toList

/-- DatabaseViewer.filteredEntries, the per-entry predicate: a falsy
(empty) query keeps every entry; otherwise the entry is kept when some
schema property finds a string under its name in the entry data whose
lowercase form contains the lowercase query. The entry data map is a
lookup function from property name to optional value. -/
def entryMatches (props : List DatabaseProperty)
    (data : String → Option Value) (query : String) : Bool :=
  if query = "" then true
  else
    props.any fun p =>
      match data p.name with
      | some (.str s) => strIncludes (jsToLower s) (jsToLower query)
      | _ => false

/-- The zero value the entry editor assigns per property type when
initialising a fresh entry form: false for checkbox, the empty list for
multiSelect, 0 for rating, and the empty string for every other type. -/
def zeroValue : PropertyType → Value
  | .checkbox => .bool false
  | .multiSelect => .list []
  | .rating => .num 0
  | _ => .str ""

/-- EntryEditorDialog, initial form data effect: walk the schema in
order and bind each property name to its type's zero value; a later
property with the same name overwrites an earlier one, as JS object
assignment does. -/
def buildEmptyEntry (props : List DatabaseProperty) :
    String → Option Value :=
  props.foldl
    (fun m p => fun k => if k = p.name then some (zeroValue p.type) else m k)
    (fun _ => none)

/-- Modelled from the spec: validateEntry(schema, data) of section 4.1.
The source has no such function (EntryEditorDialog.handleSave hands the
form data to onSave without any check, and section 9 records that
required markers are advisory only), so the operation is taken from the
spec words: for each property with required = true the value must be
present and, when it is a string, non-empty after trimming; the ids of
the failing properties are returned, in schema order. The function only
reads data, so the data map is never mutated. -/
def validateEntry (props : List DatabaseProperty)
    (data : String → Option Value) : List String :=
  (props.filter fun p =>
    p.required &&
      match data p.name with
      | none => true
      | some (.str s) => jsTrim s = ""
      | some _ => false).map (fun p => p.id)

/-- Sample block: a text block as the editor would create it. -/
def sampleBlockA : Block :=
  { id := "a", type := .text, content := .text "" "paragraph", position := 0 }

/-- Sample block: a heading block as the editor would create it. -/
def sampleBlockB : Block :=
  { id := "b", type := .heading, content := .heading "" 1, position := 1 }

/-- Sample schema field: a required text property. -/
def samplePropA : DatabaseProperty :=
  { id := "p1", name := "Name", type := .text, options := none,
    required := true }

/-- Sample schema field: an optional checkbox property. -/
def samplePropB : DatabaseProperty :=
  { id := "p2", name := "Done", type := .checkbox, options := none,
    required := false }

theorem reindexFrom_length (n : Nat) (bs : List Block) :
    (reindexFrom n bs).length = bs.length := by
  induction bs generalizing n with
  | nil => rfl
  | cons b bs ih => simp [reindexFrom, ih]

theorem reindexFrom_map_position (n : Nat) (bs : List Block) :
    (reindexFrom n bs).map (fun b => b.position) =
      List.range' n bs.length := by
  induction bs generalizing n with
  | nil => rfl
  | cons b bs ih => simp [reindexFrom, List.range'_succ, ih]

theorem reindex_positionsOk (bs : List Block) : positionsOk (reindex bs) := by
  unfold positionsOk reindex
  rw [reindexFrom_map_position, reindexFrom_length, List.range_eq_range']

theorem reindexFrom_map_core (n : Nat) (bs : List Block) :
    (reindexFrom n bs).map blockCore = bs.map blockCore := by
  induction bs generalizing n with
  | nil => rfl
  | cons b bs ih => simp [reindexFrom, blockCore, ih]

theorem reindex_map_core (bs : List Block) :
    (reindex bs).map blockCore = bs.map blockCore :=
  reindexFrom_map_core 0 bs

theorem spliceInsert_map (f : α → β) (n : Nat) (a : α) (l : List α) :
    (spliceInsert n a l).map f = spliceInsert n (f a) (l.map f) := by
  simp [spliceInsert, List.map_take, List.map_drop]

theorem spliceInsert_perm (n : Nat) (a : α) (l : List α) :
    (spliceInsert n a l).Perm (a :: l) := by
  have h : (l.take n ++ a :: l.drop n).Perm (a :: (l.take n ++ l.drop n)) :=
    List.perm_middle
  simpa [spliceInsert, List.take_append_drop] using h

theorem spliceInsert_at_length (a : α) (l : List α) :
    spliceInsert l.length a l = l ++ [a] := by
  simp [spliceInsert]

theorem findIndex_lt_length {p : α → Bool} {l : List α} {i : Nat}
    (h : findIndex p l = some i) : i < l.length := by
  induction l generalizing i with
  | nil => simp [findIndex] at h
  | cons a l ih =>
    by_cases hp : p a
    · simp [findIndex, hp] at h
      simp only [List.length_cons]
      omega
    · simp [findIndex, hp] at h
      obtain ⟨j, hj, hji⟩ := h
      have := ih hj
      simp only [List.length_cons]
      omega

theorem findIndex_none_of_all {p : α → Bool} {l : List α}
    (h : ∀ a ∈ l, p a = false) : findIndex p l = none := by
  induction l with
  | nil => rfl
  | cons a l ih =>
    have ha := h a (List.mem_cons_self a l)
    simp [findIndex, ha,
      ih (fun x hx => h x (List.mem_cons_of_mem a hx))]

theorem findIndex_append_last {p : α → Bool} {init : List α} {b : α}
    (h : ∀ a ∈ init, p a = false) (hb : p b = true) :
    findIndex p (init ++ [b]) = some init.length := by
  induction init with
  | nil => simp [findIndex, hb]
  | cons a init ih =>
    have ha := h a (List.mem_cons_self a init)
    simp [findIndex, ha,
      ih (fun x hx => h x (List.mem_cons_of_mem a hx))]

theorem cons_eraseIdx_perm {l : List α} {i : Nat} {a : α}
    (h : l[i]? = some a) : (a :: l.eraseIdx i).Perm l := by
  induction l generalizing i with
  | nil => simp at h
  | cons x t ih =>
    match i with
    | 0 =>
      simp at h
      subst h
      simp [List.eraseIdx]
    | Nat.succ j =>
      simp at h
      have hp := ih h
      have he : (x :: t).eraseIdx (j + 1) = x :: t.eraseIdx j := rfl
      rw [he]
      exact (List.Perm.swap x a (t.eraseIdx j)).trans (hp.cons x)

theorem spliceInsert_eraseIdx_perm {l : List α} {i j : Nat} {a : α}
    (h : l[i]? = some a) : (spliceInsert j a (l.eraseIdx i)).Perm l :=
  (spliceInsert_perm j a (l.eraseIdx i)).trans (cons_eraseIdx_perm h)

theorem moveCore_some_perm {getId : α → String} {l : List α}
    {theId : String} {dir : Direction} {out : List α}
    (h : moveCore getId l theId dir = some out) : out.Perm l := by
  unfold moveCore at h
  cases hf : findIndex (fun x => getId x == theId) l with
  | none => rw [hf] at h; cases h
  | some i =>
    rw [hf] at h
    cases dir with
    | up =>
      by_cases hi : i = 0
      · simp [hi] at h
      · simp only [hi, if_false, reduceIte] at h
        cases hg : l[i]? with
        | none => rw [hg] at h; cases h
        | some a =>
          rw [hg] at h
          cases h
          exact spliceInsert_eraseIdx_perm hg
    | down =>
      by_cases hi : i + 1 ≥ l.length
      · simp [hi] at h
      · simp only [hi, if_false, reduceIte] at h
        cases hg : l[i]? with
        | none => rw [hg] at h; cases h
        | some a =>
          rw [hg] at h
          cases h
          exact spliceInsert_eraseIdx_perm hg

theorem moveBlock_positionsOk {bs : List Block} (hbs : positionsOk bs)
    (blockId : String) (dir : Direction) :
    positionsOk (moveBlock bs blockId dir) := by
  unfold moveBlock
  cases moveCore Block.id bs blockId dir with
  | none => exact hbs
  | some moved => exact reindex_positionsOk moved

theorem applyBlockOp_positionsOk {bs : List Block} (hbs : positionsOk bs)
    (op : BlockOp) : positionsOk (applyBlockOp bs op) := by
  cases op with
  | insert tag newId positionArg => exact reindex_positionsOk _
  | remove blockId => exact reindex_positionsOk _
  | move blockId dir => exact moveBlock_positionsOk hbs blockId dir

/-- Claim C1 (amended): starting from a block list whose position fields
already equal 0..n-1 in array order, every sequence of insert (addBlock),
remove (deleteBlock) and move (moveBlock) operations yields a list whose
position fields equal 0..n'-1 in array order, n' being the resulting
length. The amendment adds the initial-invariant hypothesis: moveBlock
returns the list unchanged, without reindexing, when the id is absent or
the move hits a boundary, so an initially bad list can stay bad. -/
theorem blockOps_preserve_positions (bs : List Block) (ops : List BlockOp)
    (hbs : positionsOk bs) : positionsOk (applyBlockOps bs ops) := by
  induction ops generalizing bs with
  | nil => exact hbs
  | cons op ops ih =>
    show positionsOk (applyBlockOps (applyBlockOp bs op) ops)
    exact ih _ (applyBlockOp_positionsOk hbs op)

/-- Claim C1 witness: a concrete run of one move and one insert on a
well-positioned singleton list keeps positions equal to array indices. -/
theorem blockOps_preserve_positions_witness :
    positionsOk (applyBlockOps [sampleBlockA]
      [BlockOp.move "a" .down, BlockOp.insert .heading "b" none]) :=
  blockOps_preserve_positions _ _ (by unfold positionsOk; decide)

/-- Claim C1 counterexample: on a list whose single block carries
position 5, a move naming an id that is not present returns the list
unchanged, so the resulting positions are not 0..n'-1; the claim as
stated, quantifying over every block list, is therefore false. -/
theorem blockOps_positions_counterexample :
    ¬ positionsOk (applyBlockOps
      [{ id := "a", type := .text, content := .text "" "paragraph",
         position := 5 }]
      [BlockOp.move "missing" .up]) := by
  unfold positionsOk
  decide

/-- Claim C10: moveBlock returns a list whose blocks, projected to their
id, type and content, are a permutation of the input blocks' projections
(nothing added, removed or edited; only array order and the derived
position fields change), and a call naming an id not present in the list
returns the list unchanged. -/
theorem moveBlock_frame (bs : List Block) (blockId : String)
    (dir : Direction) :
    ((moveBlock bs blockId dir).map blockCore).Perm (bs.map blockCore) ∧
    (blockId ∉ bs.map (fun b => b.id) → moveBlock bs blockId dir = bs) := by
  constructor
  · unfold moveBlock
    cases hmc : moveCore Block.id bs blockId dir with
    | none => exact List.Perm.refl _
    | some moved =>
      rw [reindex_map_core]
      exact (moveCore_some_perm hmc).map blockCore
  · intro hid
    have hfi : findIndex (fun x => Block.id x == blockId) bs = none := by
      refine findIndex_none_of_all fun b hb => ?_
      refine beq_eq_false_iff_ne.mpr fun he => hid ?_
      rw [← he]
      exact List.mem_map_of_mem (fun b => b.id) hb
    unfold moveBlock moveCore
    rw [hfi]

/-- Claim C10 witness: a concrete absent-id call returns the two-block
list unchanged, and a concrete down-move keeps the same projected
blocks up to permutation. -/
theorem moveBlock_frame_witness :
    moveBlock [sampleBlockA, sampleBlockB] "zzz" .up =
      [sampleBlockA, sampleBlockB] ∧
    ((moveBlock [sampleBlockA, sampleBlockB] "a" .down).map blockCore).Perm
      ([sampleBlockA, sampleBlockB].map blockCore) :=
  ⟨(moveBlock_frame [sampleBlockA, sampleBlockB] "zzz" .up).2 (by decide),
   (moveBlock_frame [sampleBlockA, sampleBlockB] "a" .down).1⟩

theorem moveCore_first_up (getId : α → String) (a : α) (rest : List α) :
    moveCore getId (a :: rest) (getId a) .up = none := by
  have hfi : findIndex (fun x => getId x == getId a) (a :: rest) = some 0 := by
    simp [findIndex]
  unfold moveCore
  rw [hfi]
  simp

theorem moveCore_last_down (getId : α → String) (init : List α) (b : α)
    (h : ∀ a ∈ init, getId a ≠ getId b) :
    moveCore getId (init ++ [b]) (getId b) .down = none := by
  have hfi : findIndex (fun x => getId x == getId b) (init ++ [b]) =
      some init.length :=
    findIndex_append_last
      (fun a ha => beq_eq_false_iff_ne.mpr (h a ha))
      (by simp)
  unfold moveCore
  rw [hfi]
  simp

theorem nodup_ids_init_ne {getId : α → String} {init : List α} {b : α}
    (hnd : ((init ++ [b]).map getId).Nodup) :
    ∀ a ∈ init, getId a ≠ getId b := by
  intro a ha he
  rw [List.map_append, List.nodup_append] at hnd
  exact hnd.2.2 (List.mem_map_of_mem getId ha) (by simp [he])

/-- Claim C6: moving the first block up and moving the last block down
are no-ops on the block sequence, and the same boundary discipline holds
for the schema property list; the last-element cases assume the ids in
the list are distinct, the data-model invariant on ids. -/
theorem move_boundary_noop :
    (∀ (b : Block) (rest : List Block),
      moveBlock (b :: rest) b.id .up = b :: rest) ∧
    (∀ (init : List Block) (b : Block),
      ((init ++ [b]).map (fun x => x.id)).Nodup →
      moveBlock (init ++ [b]) b.id .down = init ++ [b]) ∧
    (∀ (p : DatabaseProperty) (rest : List DatabaseProperty),
      moveProperty (p :: rest) p.id .up = p :: rest) ∧
    (∀ (init : List DatabaseProperty) (p : DatabaseProperty),
      ((init ++ [p]).map (fun x => x.id)).Nodup →
      moveProperty (init ++ [p]) p.id .down = init ++ [p]) := by
  refine ⟨fun b rest => ?_, fun init b hnd => ?_,
    fun p rest => ?_, fun init p hnd => ?_⟩
  · unfold moveBlock
    rw [moveCore_first_up Block.id b rest]
  · unfold moveBlock
    rw [moveCore_last_down Block.id init b (nodup_ids_init_ne hnd)]
  · unfold moveProperty
    rw [moveCore_first_up DatabaseProperty.id p rest]
  · unfold moveProperty
    rw [moveCore_last_down DatabaseProperty.id init p (nodup_ids_init_ne hnd)]

/-- Claim C6 witness: the four boundary no-ops on concrete two-element
lists with distinct ids. -/
theorem move_boundary_noop_witness :
    moveBlock [sampleBlockA, sampleBlockB] "a" .up =
      [sampleBlockA, sampleBlockB] ∧
    moveBlock [sampleBlockA, sampleBlockB] "b" .down =
      [sampleBlockA, sampleBlockB] ∧
    moveProperty [samplePropA, samplePropB] "p1" .up =
      [samplePropA, samplePropB] ∧
    moveProperty [samplePropA, samplePropB] "p2" .down =
      [samplePropA, samplePropB] :=
  ⟨move_boundary_noop.1 sampleBlockA [sampleBlockB],
   move_boundary_noop.2.1 [sampleBlockA] sampleBlockB (by decide),
   move_boundary_noop.2.2.1 samplePropA [samplePropB],
   move_boundary_noop.2.2.2 [samplePropA] samplePropB (by decide)⟩

/-- Claim C2 counterexample: deserializing the empty string (and a null
field) yields the empty block list, zero blocks rather than exactly one
text block; and deserializing an unparseable string yields one text block
whose text is the raw stored content, which is not empty content. The
claim as stated is therefore false on both counts. -/
theorem deserialize_malformed_counterexample :
    deserialize (fun _ => none) (some "") = [] ∧
    deserialize (fun _ => none) none = [] ∧
    deserialize (fun _ => none) (some "not json") =
      [defaultTextBlock "not json"] ∧
    (defaultTextBlock "not json").content ≠ BlockContent.text "" "paragraph" := by
  decide

/-- Claim C2 (amended): deserializing a null or empty-string stored
content yields the empty block list; deserializing stored content on
which the JSON parse throws yields exactly one block of tag text whose
text is the raw stored content, with format paragraph and position 0;
deserialization itself is total, so the page load never fails. -/
theorem deserialize_fallback (parse : String → Option (Option (List Block)))
    (s : String) :
    deserialize parse none = [] ∧
    deserialize parse (some "") = [] ∧
    (s ≠ "" → parse s = none →
      deserialize parse (some s) = [defaultTextBlock s]) := by
  refine ⟨rfl, by simp [deserialize], fun hs hp => ?_⟩
  simp [deserialize, hs, hp]

/-- Claim C2 witness: deserializing a concrete unparseable string under
a parse function that always throws produces the single fallback text
block carrying that string. -/
theorem deserialize_fallback_witness :
    deserialize (fun _ => none) (some "oops") = [defaultTextBlock "oops"] :=
  (deserialize_fallback (fun _ => none) "oops").2.2 (by decide) rfl

/-- Claim C3: the round-trip law. The page stores JSON.stringify of the
block list and the loader feeds the stored string back through the
platform JSON parse; both platform functions live outside the repository
and are modelled abstractly, so the theorem carries the platform
contract as hypotheses: the serialized string is non-empty and parses
back to the same block array. Under those, deserialize of the serialized
form returns the block list unchanged, every field (position included)
equal to the original. -/
theorem serialize_roundtrip (stringify : List Block → String)
    (parse : String → Option (Option (List Block))) (bs : List Block)
    (hne : stringify bs ≠ "")
    (hinv : parse (stringify bs) = some (some bs)) :
    deserialize parse (some (stringify bs)) = bs := by
  simp [deserialize, hne, hinv]

/-- Claim C3 witness: a concrete stringify/parse pair satisfying the
platform contract on a one-block list round-trips it. -/
theorem serialize_roundtrip_witness :
    deserialize
      (fun s => if s = "stored" then some (some [sampleBlockA]) else none)
      (some "stored") = [sampleBlockA] :=
  serialize_roundtrip (fun _ => "stored")
    (fun s => if s = "stored" then some (some [sampleBlockA]) else none)
    [sampleBlockA] (by decide) (by decide)

/-- Claim C5 counterexample: on the two-block list a, b an insert at
position 0 places the new block n at index 0, in front of the block that
was at position 0, so the resulting id order is n, a, b and not the
a, n, b the claim's immediately-after reading predicts. -/
theorem addBlock_position_counterexample :
    (addBlock [sampleBlockA, sampleBlockB] .text "n" (some 0)).map
      (fun b => b.id) = ["n", "a", "b"] ∧
    (["n", "a", "b"] : List String) ≠ ["a", "n", "b"] := by
  decide

/-- Claim C5 (amended): addBlock creates a new block whose content is
getDefaultContent of the tag and splices it in at index position — that
is, immediately before the block previously at that index, with an
out-of-range index clamped to the end — or at the end of the list when
the position is omitted, then reindexes all positions to 0..n-1; it is
total over the tag set. Stated on the id/type/content projection. -/
theorem addBlock_spec (bs : List Block) (tag : BlockType) (newId : String)
    (pos : Nat) :
    (addBlock bs tag newId (some pos)).map blockCore =
      spliceInsert pos (newId, tag, getDefaultContent tag)
        (bs.map blockCore) ∧
    (addBlock bs tag newId none).map blockCore =
      bs.map blockCore ++ [(newId, tag, getDefaultContent tag)] ∧
    positionsOk (addBlock bs tag newId (some pos)) ∧
    positionsOk (addBlock bs tag newId none) := by
  refine ⟨?_, ?_, reindex_positionsOk _, reindex_positionsOk _⟩
  · show (reindex (spliceInsert pos _ bs)).map blockCore = _
    rw [reindex_map_core, spliceInsert_map]
    rfl
  · show (reindex (spliceInsert bs.length _ bs)).map blockCore = _
    rw [reindex_map_core, spliceInsert_map, ← List.length_map bs blockCore,
      spliceInsert_at_length]
    rfl

theorem validateEntry_failCond_iff (data : String → Option Value)
    (nm : String) :
    ((match data nm with
      | none => true
      | some (.str s) => decide (jsTrim s = "")
      | some _ => false) = true) ↔
      (data nm = none ∨
        ∃ s, data nm = some (.str s) ∧ jsTrim s = "") := by
  cases h : data nm with
  | none => simp
  | some v => cases v <;> simp

/-- Claim C4: validateEntry returns exactly the ids of the properties
with required = true whose value is absent or is a string that is empty
after trimming; the function only reads the data map, so the map is
never mutated. The operation is absent from the source (the entry editor
saves without validating), so validateEntry is modelled from the spec
words of section 4.1, and this theorem characterises membership in its
result. -/
theorem validateEntry_spec (props : List DatabaseProperty)
    (data : String → Option Value) (theId : String) :
    theId ∈ validateEntry props data ↔
      ∃ p ∈ props, p.id = theId ∧ p.required = true ∧
        (data p.name = none ∨
          ∃ s, data p.name = some (.str s) ∧ jsTrim s = "") := by
  unfold validateEntry
  simp only [List.mem_map, List.mem_filter, Bool.and_eq_true]
  constructor
  · rintro ⟨p, ⟨hp, hreq, hcond⟩, hid⟩
    exact ⟨p, hp, hid, hreq, (validateEntry_failCond_iff data p.name).mp hcond⟩
  · rintro ⟨p, hp, hid, hreq, hcond⟩
    exact ⟨p, ⟨hp, hreq, (validateEntry_failCond_iff data p.name).mpr hcond⟩, hid⟩

/-- Claim C4 witness: for a schema with one required text property, a
whitespace-only value puts the property id in the failing set and a
non-blank value does not. -/
theorem validateEntry_spec_witness :
    "p1" ∈ validateEntry [samplePropA]
      (fun k => if k = "Name" then some (.str "  ") else none) ∧
    "p1" ∉ validateEntry [samplePropA]
      (fun k => if k = "Name" then some (.str "x") else none) :=
  ⟨(validateEntry_spec [samplePropA]
      (fun k => if k = "Name" then some (.str "  ") else none) "p1").mpr
      ⟨samplePropA, by decide, rfl, rfl, Or.inr ⟨"  ", by decide, by decide⟩⟩,
   by decide⟩

theorem buildEmptyEntry_foldl_isSome (props : List DatabaseProperty)
    (m : String → Option Value) (k : String) :
    ((props.foldl
        (fun m p => fun j =>
          if j = p.name then some (zeroValue p.type) else m j) m) k).isSome =
      true ↔
      (k ∈ props.map (fun p => p.name) ∨ (m k).isSome = true) := by
  induction props generalizing m with
  | nil => simp
  | cons p ps ih =>
    simp only [List.foldl_cons, ih, List.map_cons, List.mem_cons]
    by_cases hk : k = p.name
    · simp [hk]
    · simp [hk, or_assoc]

theorem buildEmptyEntry_foldl_not_mem (props : List DatabaseProperty)
    (m : String → Option Value) (k : String)
    (hk : k ∉ props.map (fun p => p.name)) :
    (props.foldl
      (fun m p => fun j =>
        if j = p.name then some (zeroValue p.type) else m j) m) k = m k := by
  induction props generalizing m with
  | nil => rfl
  | cons p ps ih =>
    simp only [List.map_cons, List.mem_cons] at hk
    push_neg at hk
    simp only [List.foldl_cons, ih _ hk.2, hk.1, if_false, reduceIte]

theorem buildEmptyEntry_foldl_binding (props : List DatabaseProperty)
    (m : String → Option Value)
    (hnd : (props.map (fun p => p.name)).Nodup) (p : DatabaseProperty)
    (hp : p ∈ props) :
    (props.foldl
      (fun m p => fun j =>
        if j = p.name then some (zeroValue p.type) else m j) m) p.name =
      some (zeroValue p.type) := by
  induction props generalizing m with
  | nil => cases hp
  | cons q ps ih =>
    simp only [List.map_cons, List.nodup_cons] at hnd
    rcases List.mem_cons.mp hp with hpq | hps
    · subst hpq
      simp only [List.foldl_cons]
      rw [buildEmptyEntry_foldl_not_mem ps _ p.name hnd.1]
      simp
    · simp only [List.foldl_cons]
      exact ih _ hnd.2 hps

/-- Claim C7: for a schema with pair-wise distinct property names (the
data-model invariant, names being the entry value keys), buildEmptyEntry
binds exactly the schema's property names — a key is present iff it is
some property's name — and each name is bound to its type's zero value:
the empty string for text, date, select, url, email and phone, false for
checkbox, the empty list for multiSelect and 0 for rating. -/
theorem buildEmptyEntry_spec (props : List DatabaseProperty) (k : String)
    (hnd : (props.map (fun p => p.name)).Nodup) :
    ((buildEmptyEntry props k).isSome = true ↔
      k ∈ props.map (fun p => p.name)) ∧
    (∀ p ∈ props, buildEmptyEntry props p.name = some (zeroValue p.type)) ∧
    zeroValue .text = .str "" ∧ zeroValue .date = .str "" ∧
    zeroValue .select = .str "" ∧ zeroValue .url = .str "" ∧
    zeroValue .email = .str "" ∧ zeroValue .phone = .str "" ∧
    zeroValue .checkbox = .bool false ∧
    zeroValue .multiSelect = .list [] ∧ zeroValue .rating = .num 0 := by
  refine ⟨?_, ?_, rfl, rfl, rfl, rfl, rfl, rfl, rfl, rfl, rfl⟩
  · unfold buildEmptyEntry
    rw [buildEmptyEntry_foldl_isSome]
    simp
  · intro p hp
    exact buildEmptyEntry_foldl_binding props _ hnd p hp

/-- Claim C7 witness: on a two-property schema with distinct names, the
checkbox property's name is bound to false, and a key that is no
property's name is absent. -/
theorem buildEmptyEntry_spec_witness :
    buildEmptyEntry [samplePropA, samplePropB] "Done" =
      some (Value.bool false) ∧
    ((buildEmptyEntry [samplePropA, samplePropB] "Other").isSome = true ↔
      "Other" ∈ [samplePropA, samplePropB].map (fun p => p.name)) :=
  ⟨(buildEmptyEntry_spec [samplePropA, samplePropB] "Done"
      (by decide)).2.1 samplePropB (by decide),
   (buildEmptyEntry_spec [samplePropA, samplePropB] "Other" (by decide)).1⟩

/-- Claim C8 counterexample: with a schema holding a single checkbox
property and an entry whose only value is the boolean false, the empty
query matches the entry even though no property has a string value at
all, so no string value contains the query; the claimed iff fails for
the empty query. -/
theorem entryMatches_counterexample :
    entryMatches [samplePropB]
      (fun k => if k = "Done" then some (Value.bool false) else none) "" =
      true ∧
    (fun k => if k = "Done" then some (Value.bool false) else none)
      samplePropB.name = some (Value.bool false) ∧
    ([samplePropB].all fun p =>
      match (fun k => if k = "Done" then some (Value.bool false) else none)
          p.name with
      | some (.str _) => false
      | _ => true) = true := by
  decide

/-- Claim C8 (amended): the search filter is a pure predicate; for every
non-empty query an entry matches iff some schema property's value in the
entry data is a string whose lowercase form contains the lowercase query
as a substring — values of non-string shape never contribute — and the
empty query matches every entry. -/
theorem entryMatches_spec (props : List DatabaseProperty)
    (data : String → Option Value) (query : String) :
    entryMatches props data "" = true ∧
    (query ≠ "" →
      (entryMatches props data query = true ↔
        ∃ p ∈ props, ∃ s, data p.name = some (.str s) ∧
          strIncludes (jsToLower s) (jsToLower query) = true)) := by
  constructor
  · simp [entryMatches]
  · intro hq
    simp only [entryMatches, if_neg hq]
    rw [List.any_eq_true]
    constructor
    · rintro ⟨p, hp, hmatch⟩
      cases hd : data p.name with
      | none => rw [hd] at hmatch; cases hmatch
      | some v =>
        cases v with
        | str s =>
          rw [hd] at hmatch
          exact ⟨p, hp, s, hd, hmatch⟩
        | num n => rw [hd] at hmatch; cases hmatch
        | bool b => rw [hd] at hmatch; cases hmatch
        | list xs => rw [hd] at hmatch; cases hmatch
    · rintro ⟨p, hp, s, hd, hs⟩
      refine ⟨p, hp, ?_⟩
      rw [hd]
      exact hs

/-- Claim C8 witness: over the entries with name Apple and name Banana
and the query app, only the Apple entry matches, case-insensitively. -/
theorem entryMatches_spec_witness :
    entryMatches [samplePropA]
      (fun k => if k = "Name" then some (Value.str "Apple") else none)
      "app" = true ∧
    entryMatches [samplePropA]
      (fun k => if k = "Name" then some (Value.str "Banana") else none)
      "app" = false :=
  ⟨((entryMatches_spec [samplePropA]
      (fun k => if k = "Name" then some (Value.str "Apple") else none)
      "app").2 (by decide)).mpr
      ⟨samplePropA, by decide, "Apple", by decide, by decide⟩,
   by decide⟩

/-- Claim C9 counterexample: saving a select property with an empty
option list succeeds and produces a property whose options field is
present but empty, so presence of options does not imply non-emptiness
and the claim as stated is false. -/
theorem propertyEditorSave_options_counterexample :
    propertyEditorSave none "p9" "Choice" .select false [] =
      some { id := "p9", name := "Choice", type := .select,
             options := some [], required := false } := by
  decide

/-- Claim C9 (amended): every property produced by the property editor's
save carries an options field exactly when its type is select or
multiSelect — there the field holds the editor's option list as it
stands, possibly empty — and no options field for every other type. -/
theorem propertyEditorSave_options_spec (existingId : Option String)
    (freshId name : String) (ptype : PropertyType) (required : Bool)
    (options : List String) (p : DatabaseProperty)
    (h : propertyEditorSave existingId freshId name ptype required options =
      some p) :
    ((p.options).isSome = true ↔ (ptype = .select ∨ ptype = .multiSelect)) ∧
    ((ptype = .select ∨ ptype = .multiSelect) → p.options = some options) ∧
    (¬(ptype = .select ∨ ptype = .multiSelect) → p.options = none) := by
  unfold propertyEditorSave at h
  by_cases hn : jsTrim name = ""
  · simp [hn] at h
  · simp only [hn, if_false, reduceIte, Option.some.injEq] at h
    subst h
    by_cases hsel : ptype = .select ∨ ptype = .multiSelect
    · simp [hsel]
    · simp [hsel]

/-- Claim C9 witness: a concrete multiSelect save carries its option
list and a concrete text save carries no options field. -/
theorem propertyEditorSave_options_spec_witness :
    ({ id := "p9", name := "Choice", type := .multiSelect,
       options := some ["x"], required := false } :
      DatabaseProperty).options = some ["x"] ∧
    ({ id := "p8", name := "Title", type := .text, options := none,
       required := false } : DatabaseProperty).options = none :=
  ⟨(propertyEditorSave_options_spec none "p9" "Choice" .multiSelect false
      ["x"] _ (by decide)).2.1 (Or.inr rfl),
   (propertyEditorSave_options_spec none "p8" "Title" .text false [] _
      (by decide)).2.2 (by decide)⟩

end PrintFlow
